import Mathlib

/-!
Verification development for the optics-simulation repository
(Fraunhofer/Fresnel diffraction simulators).  The Python sources are
shallowly embedded: aperture rasterizers over exact rationals, the
FFT-based spectral engine over the reals/complexes, the analytic
Fraunhofer model and the Fresnel intensity model over the reals.
-/

open scoped BigOperators

/-- Models Python `int(q)` applied to a float: truncation toward zero. -/
def pyInt (q : ℚ) : ℤ := if q < 0 then ⌈q⌉ else ⌊q⌋

namespace DiffractionCalculator

/-- Embeds `create_circular_aperture` from `src/punto2/diffraction_calculator.py`:
entry at row `i`, column `j` is 1 when `(x-cx)^2 + (y-cy)^2 ≤ radius^2` (with
`x` the column coordinate and `y` the row coordinate), else 0. -/
def create_circular_aperture (radius center_x center_y : ℚ) (i j : ℕ) : ℚ :=
  if ((j : ℚ) - center_x) ^ 2 + ((i : ℚ) - center_y) ^ 2 ≤ radius ^ 2 then 1 else 0

/-- Embeds `create_square_aperture`: slice bounds are truncated with `int` and
clamped into `[0, cols]` and `[0, rows]`; cells inside the slice get value 1. -/
def create_square_aperture (rows cols : ℕ) (side_length center_x center_y : ℚ)
    (i j : ℕ) : ℚ :=
  let half := side_length / 2
  let x_start := max 0 (pyInt (center_x - half))
  let x_end := min (cols : ℤ) (pyInt (center_x + half))
  let y_start := max 0 (pyInt (center_y - half))
  let y_end := min (rows : ℤ) (pyInt (center_y + half))
  if y_start ≤ (i : ℤ) ∧ (i : ℤ) < y_end ∧ x_start ≤ (j : ℤ) ∧ (j : ℤ) < x_end
  then 1 else 0

/-- Embeds `create_single_slit_aperture`: same clamped-slice scheme with an
independent width and height. -/
def create_single_slit_aperture (rows cols : ℕ) (slit_width slit_height center_x center_y : ℚ)
    (i j : ℕ) : ℚ :=
  let half_width := slit_width / 2
  let half_height := slit_height / 2
  let x_start := max 0 (pyInt (center_x - half_width))
  let x_end := min (cols : ℤ) (pyInt (center_x + half_width))
  let y_start := max 0 (pyInt (center_y - half_height))
  let y_end := min (rows : ℤ) (pyInt (center_y + half_height))
  if y_start ≤ (i : ℤ) ∧ (i : ℤ) < y_end ∧ x_start ≤ (j : ℤ) ∧ (j : ℤ) < x_end
  then 1 else 0

/-- Models `np.clip(v, 0, 1)` on one scalar. -/
def npClip01 (v : ℚ) : ℚ := min 1 (max 0 v)

/-- Embeds `create_double_slit_aperture`: the two single-slit masks (offset by
`± separation/2` along x) are summed and the result is clipped to [0,1]. -/
def create_double_slit_aperture (rows cols : ℕ)
    (slit_width slit_height separation center_x center_y : ℚ) (i j : ℕ) : ℚ :=
  npClip01
    (create_single_slit_aperture rows cols slit_width slit_height
        (center_x - separation / 2) center_y i j +
      create_single_slit_aperture rows cols slit_width slit_height
        (center_x + separation / 2) center_y i j)

/-- Total mask population: the sum of all entries over the `rows × cols` grid. -/
def maskSum (rows cols : ℕ) (f : ℕ → ℕ → ℚ) : ℚ :=
  ∑ i ∈ Finset.range rows, ∑ j ∈ Finset.range cols, f i j

end DiffractionCalculator

namespace Punto2Sim

/-- Parameters of `DiffractionSimulator.create_disorder_aperture`
(`src/punto2/Punto_2.py`). -/
structure DisorderParams where
  matrixSize : ℕ
  pixelSize : ℚ
  disorderSpacing : ℚ
  disorderCircleDiameter : ℚ
  disorderAmount : ℚ

/-- Models one draw of `np.random.uniform(lo, hi)` given the unit sample `u`. -/
def npUniform (lo hi u : ℚ) : ℚ := lo + (hi - lo) * u

/-- Lattice offsets of the 3×3 grid of sub-apertures, in source order. -/
def disorderPositions : List (ℤ × ℤ) :=
  [(-1, -1), (-1, 0), (-1, 1), (0, -1), (0, 0), (0, 1), (1, -1), (1, 0), (1, 1)]

/-- Folds the circle placements of `create_disorder_aperture`.  The state is
the accumulated mask together with the index of the next pseudo-random draw;
the process-wide random source is modelled as the stream `rng` of unit
samples.  A jitter draw happens only when `disorder_amount > 0`. -/
def placeDisorderCircles (p : DisorderParams) (rng : ℕ → ℚ) :
    List (ℤ × ℤ) → ((ℕ → ℕ → ℚ) × ℕ) → ((ℕ → ℕ → ℚ) × ℕ)
  | [], st => st
  | (gi, gj) :: rest, (ap, k) =>
    let center : ℚ := (p.matrixSize / 2 : ℕ)
    let spacingPixels := p.disorderSpacing / p.pixelSize
    let circleRadius := p.disorderCircleDiameter / (2 * p.pixelSize)
    let x0 := center + (gi : ℚ) * spacingPixels
    let y0 := center + (gj : ℚ) * spacingPixels
    let st' :=
      if 0 < p.disorderAmount then
        let disorderRange := p.disorderAmount / 4 * spacingPixels * (3 / 10)
        (x0 + npUniform (-disorderRange) disorderRange (rng k),
          y0 + npUniform (-disorderRange) disorderRange (rng (k + 1)), k + 2)
      else (x0, y0, k)
    let ap' : ℕ → ℕ → ℚ := fun r c =>
      if ((c : ℚ) - st'.1) ^ 2 + ((r : ℚ) - st'.2.1) ^ 2 ≤ circleRadius ^ 2 then 1
      else ap r c
    placeDisorderCircles p rng rest (ap', st'.2.2)

/-- Embeds `create_disorder_aperture`: starting from the all-zero mask, stamp
a circle at each (possibly jittered) lattice position.  Returns the mask and
the index of the next unused random draw. -/
def create_disorder_aperture (p : DisorderParams) (rng : ℕ → ℚ) (k : ℕ) :
    (ℕ → ℕ → ℚ) × ℕ :=
  placeDisorderCircles p rng disorderPositions (fun _ _ => 0, k)

/-- Concrete disorder parameters used to exhibit dependence on the random
source: 9×9 grid, unit pixels, spacing 3, circle diameter 2, disorder 4. -/
def disorderExample : DisorderParams := ⟨9, 1, 3, 2, 4⟩

end Punto2Sim

namespace Spectral

/-- Embeds the 2D discrete Fourier transform (`scipy.fft.fft2` /
`numpy.fft.fft2`) of a real `n × n` matrix using the standard DFT kernel. -/
noncomputable def dft2 {n : ℕ} (M : Fin n → Fin n → ℝ) (u v : Fin n) : ℂ :=
  ∑ j : Fin n, ∑ k : Fin n,
    (M j k : ℂ) *
      Complex.exp (-2 * Real.pi * Complex.I *
        (((u : ℕ) : ℂ) * ((j : ℕ) : ℂ) + ((v : ℕ) : ℂ) * ((k : ℕ) : ℂ)) / ((n : ℕ) : ℂ))

/-- Embeds the index permutation of `fftshift` on one axis of an array of
length `n + 1`: output index `i` reads input index `i + ⌈(n+1)/2⌉ (mod n+1)`. -/
def fftshiftIdx {n : ℕ} (i : Fin (n + 1)) : Fin (n + 1) :=
  i + (((n + 2) / 2 : ℕ) : Fin (n + 1))

/-- Squared magnitude of the shifted transform: the diffraction intensity
before any normalization, as computed by both FFT GUIs. -/
noncomputable def intensityOf {n : ℕ} (M : Fin (n + 1) → Fin (n + 1) → ℝ)
    (u v : Fin (n + 1)) : ℝ :=
  Complex.abs (dft2 M (fftshiftIdx u) (fftshiftIdx v)) ^ 2

/-- Models `np.max` over a (nonempty) `(n+1) × (n+1)` field. -/
noncomputable def maxIntensity {n : ℕ} (I : Fin (n + 1) → Fin (n + 1) → ℝ) : ℝ :=
  Finset.univ.sup' Finset.univ_nonempty (fun p : Fin (n + 1) × Fin (n + 1) => I p.1 p.2)

/-- Models one IEEE floating-point division: `none` encodes the production of
a non-finite value (`NaN` or `Inf`) when the divisor is zero, `some` the exact
real quotient otherwise. -/
noncomputable def npFloatDiv (a b : ℝ) : Option ℝ := if b = 0 then none else some (a / b)

end Spectral

namespace FFTGui

/-- Embeds `FraunhoferDiffractionFFTMatplotlib.calculate_diffraction_pattern`
(`src/punto2/fraunhofer_fft_gui.py`): squared-magnitude intensity of the
shifted FFT, divided by its global maximum only when that maximum is
strictly positive. -/
noncomputable def calculate_diffraction_pattern {n : ℕ}
    (M : Fin (n + 1) → Fin (n + 1) → ℝ) (u v : Fin (n + 1)) : ℝ :=
  if 0 < Spectral.maxIntensity (Spectral.intensityOf M) then
    Spectral.intensityOf M u v / Spectral.maxIntensity (Spectral.intensityOf M)
  else Spectral.intensityOf M u v

/-- Aperture parameters of `FraunhoferDiffractionFFTMatplotlib`. -/
structure GuiParams where
  widthParam : ℝ
  heightParam : ℝ
  radiusParam : ℝ
  separationParam : ℝ
  rOuterParam : ℝ
  rInnerParam : ℝ

/-- Aperture types selectable in `create_aperture`. -/
inductive GuiApertureType
  | rectangular
  | circular
  | doubleSlit
  | cross
  | triangle
  | annular
  | custom

/-- Embeds the pointwise membership tests of `create_aperture`: the unrotated
aperture value at physical input-plane coordinates `(x, y)`. -/
noncomputable def baseAperture (p : GuiParams) (t : GuiApertureType) (x y : ℝ) : ℝ :=
  match t with
  | .rectangular => if |x| < p.widthParam / 2 ∧ |y| < p.heightParam / 2 then 1 else 0
  | .circular => if Real.sqrt (x ^ 2 + y ^ 2) ≤ p.radiusParam then 1 else 0
  | .doubleSlit =>
      if (|x + p.separationParam / 2| < p.widthParam / 2 ∧ |y| < p.heightParam / 2) ∨
          (|x - p.separationParam / 2| < p.widthParam / 2 ∧ |y| < p.heightParam / 2)
      then 1 else 0
  | .cross =>
      if (|x| < p.widthParam / 2 ∧ |y| < p.heightParam / 10) ∨
          (|x| < p.widthParam / 10 ∧ |y| < p.heightParam / 2)
      then 1 else 0
  | .triangle =>
      if -(p.heightParam / 2) ≤ y ∧ y ≤ p.heightParam / 2 ∧
          |x| ≤ p.widthParam / 2 * (1 - (y + p.heightParam / 2) / p.heightParam)
      then 1 else 0
  | .annular =>
      if Real.sqrt (x ^ 2 + y ^ 2) ≤ p.rOuterParam ∧
          p.rInnerParam ≤ Real.sqrt (x ^ 2 + y ^ 2)
      then 1 else 0
  | .custom =>
      if ((-(p.widthParam / 2) < x ∧ x < -(p.widthParam / 2) + p.widthParam / 5) ∧
          (-(p.heightParam / 2) < y ∧ y < p.heightParam / 2)) ∨
          ((-(p.widthParam / 2) < x ∧ x < p.widthParam / 2) ∧
          (-(p.heightParam / 2) < y ∧ y < -(p.heightParam / 2) + p.heightParam / 5))
      then 1 else 0

/-- Physical coordinate of sample index `k` on a `linspace(-L/2, L/2, n)` grid
with `L = n * pixelSize`. -/
noncomputable def inputCoord (n : ℕ) (pixelSize : ℝ) (k : ℤ) : ℝ :=
  -((n : ℝ) * pixelSize) / 2 + (k : ℝ) * ((n : ℝ) * pixelSize / ((n : ℝ) - 1))

/-- Unrotated aperture matrix on the `n × n` grid, viewed as a total function
on ℤ × ℤ that is zero outside the grid (row `i`, column `j`). -/
noncomputable def apertureGrid (n : ℕ) (pixelSize : ℝ) (p : GuiParams)
    (t : GuiApertureType) (i j : ℤ) : ℝ :=
  if 0 ≤ i ∧ i < (n : ℤ) ∧ 0 ≤ j ∧ j < (n : ℤ) then
    baseAperture p t (inputCoord n pixelSize j) (inputCoord n pixelSize i)
  else 0

/-- Models `scipy.ndimage.rotate(..., reshape=False, order=1, mode='constant',
cval=0.0)`: each output sample is the bilinear interpolation of the four
integer-grid neighbours of the back-rotated sample position about the grid
center `c`; samples outside the grid read the constant fill 0 (already built
into the extended matrix `g`). -/
noncomputable def rotateBilinear (g : ℤ → ℤ → ℝ) (angleDeg : ℝ) (c : ℝ) (i j : ℤ) : ℝ :=
  let ang := angleDeg * Real.pi / 180
  let u := c + ((i : ℝ) - c) * Real.cos ang - ((j : ℝ) - c) * Real.sin ang
  let v := c + ((i : ℝ) - c) * Real.sin ang + ((j : ℝ) - c) * Real.cos ang
  let du := u - (⌊u⌋ : ℝ)
  let dv := v - (⌊v⌋ : ℝ)
  (1 - du) * (1 - dv) * g ⌊u⌋ ⌊v⌋ + (1 - du) * dv * g ⌊u⌋ (⌊v⌋ + 1) +
    du * (1 - dv) * g (⌊u⌋ + 1) ⌊v⌋ + du * dv * g (⌊u⌋ + 1) (⌊v⌋ + 1)

/-- Embeds `create_aperture`: build the membership mask on the grid, then, for
a nonzero rotation angle, resample it by interpolated rotation. -/
noncomputable def create_aperture (n : ℕ) (pixelSize : ℝ) (p : GuiParams)
    (t : GuiApertureType) (rotationAngle : ℝ) (i j : ℤ) : ℝ :=
  if rotationAngle = 0 then apertureGrid n pixelSize p t i j
  else rotateBilinear (apertureGrid n pixelSize p t) rotationAngle (((n : ℝ) - 1) / 2) i j

/-- Embeds the inverted-annulus clamp of `update_parameters`
(`fraunhofer_fft_gui.py`, annular case): when the inner radius reaches or
exceeds the outer one, it is reset to `max(1e-6, r_outer - 1e-6)`. -/
noncomputable def updateClampRInner (rInner rOuter : ℝ) : ℝ :=
  if rOuter ≤ rInner then max 1e-6 (rOuter - 1e-6) else rInner

end FFTGui

namespace Punto2Sim

/-- Embeds `DiffractionSimulator.calculate_diffraction_pattern`
(`src/punto2/Punto_2.py`): squared-magnitude intensity of the shifted FFT,
divided by its global maximum unconditionally (no positivity guard). -/
noncomputable def calculate_diffraction_pattern {n : ℕ}
    (M : Fin (n + 1) → Fin (n + 1) → ℝ) (u v : Fin (n + 1)) : Option ℝ :=
  Spectral.npFloatDiv (Spectral.intensityOf M u v)
    (Spectral.maxIntensity (Spectral.intensityOf M))

end Punto2Sim

namespace Punto1

/-- Embeds `FraunhoferDiffraction.sinc` (`src/punto1/Punto_1.py`):
`np.where(np.abs(x) < 1e-10, 1, np.sin(x) / x)`. -/
noncomputable def sinc (x : ℝ) : ℝ := if |x| < 1e-10 then 1 else Real.sin x / x

/-- Term `m` of the power series of the Bessel function J1. -/
noncomputable def besselTerm (m : ℕ) (x : ℝ) : ℝ :=
  (-1) ^ m * (x / 2) ^ (2 * m + 1) / ((m.factorial : ℝ) * ((m + 1).factorial : ℝ))

/-- Models `scipy.special.j1`, the Bessel function of the first kind of order
one, by its standard power series. -/
noncomputable def besselJ1 (x : ℝ) : ℝ := tsum fun m => besselTerm m x

/-- Embeds `FraunhoferDiffraction.bessel_j1_normalized`:
`np.where(np.abs(x) < 1e-10, 0.5, j1(x) / x)`. -/
noncomputable def bessel_j1_normalized (x : ℝ) : ℝ :=
  if |x| < 1e-10 then 0.5 else besselJ1 x / x

/-- Physical parameters of `FraunhoferDiffraction.calculate_intensity`. -/
structure P1Params where
  lam : ℝ
  D : ℝ
  a : ℝ
  b : ℝ
  R1 : ℝ
  R2 : ℝ
  z : ℝ
  n : ℝ
  I_source : ℝ

/-- Embeds `kr_safe`: `k*r` with `r = sqrt(x²+y²)` floored to `1e-10` when `r`
is not strictly above `1e-10`. -/
noncomputable def kr_safe (p : P1Params) (x y : ℝ) : ℝ :=
  if 1e-10 < Real.sqrt (x ^ 2 + y ^ 2) then
    2 * Real.pi / p.lam * Real.sqrt (x ^ 2 + y ^ 2)
  else 1e-10

/-- Field amplitude of the rectangular sub-aperture,
`(b·a)·sinc(β_x/2)·sinc(β_y/2)` with `β = k·(dim)·(coord)/z` and `k = 2π/λ`. -/
noncomputable def rect_field_amplitude (p : P1Params) (x y : ℝ) : ℝ :=
  p.b * p.a * sinc (2 * Real.pi / p.lam * p.a * x / p.z / 2) *
    sinc (2 * Real.pi / p.lam * p.b * y / p.z / 2)

/-- Field amplitude of the annular sub-aperture,
`4π·(R2²·J1norm(kr_safe·R2/z) - R1²·J1norm(kr_safe·R1/z))`. -/
noncomputable def ring_field_amplitude (p : P1Params) (x y : ℝ) : ℝ :=
  4 * Real.pi *
    (p.R2 ^ 2 * bessel_j1_normalized (kr_safe p x y * p.R2 / p.z) -
      p.R1 ^ 2 * bessel_j1_normalized (kr_safe p x y * p.R1 / p.z))

/-- Embeds `FraunhoferDiffraction.calculate_intensity`: rectangle term,
annulus term (with `np.where(R > 0, ...)` guards), interference cross term,
global physical prefactor, and the final floor at zero. -/
noncomputable def calculate_intensity (p : P1Params) (x y : ℝ) : ℝ :=
  let k := 2 * Real.pi / p.lam
  let sinc_x := sinc (k * p.a * x / p.z / 2)
  let sinc_y := sinc (k * p.b * y / p.z / 2)
  let bessel_R1 :=
    if 0 < p.R1 then p.R1 ^ 2 * bessel_j1_normalized (kr_safe p x y * p.R1 / p.z) else 0
  let bessel_R2 :=
    if 0 < p.R2 then p.R2 ^ 2 * bessel_j1_normalized (kr_safe p x y * p.R2 / p.z) else 0
  let term1 := p.b ^ 2 * p.a ^ 2 * sinc_x ^ 2 * sinc_y ^ 2
  let term2 := (4 * Real.pi) ^ 2 * (bessel_R2 - bessel_R1) ^ 2
  let term3 := 2 * (p.b * p.a * sinc_x * sinc_y) * (4 * Real.pi * (bessel_R2 - bessel_R1)) *
    Real.cos (k * p.D * y / p.z)
  max 0 (p.I_source * (p.n ^ 2 / (p.lam ^ 2 * p.z ^ 2)) * (term1 + term2 + term3))

/-- Embeds the annulus clamp of `FraunhoferDiffraction.update_params`: when
`R1 > R2` the inner radius is reset to `R2`. -/
noncomputable def updateClampR1 (R1 R2 : ℝ) : ℝ := if R2 < R1 then R2 else R1

end Punto1

namespace Punto3

/-- Models `np.sinc`: the normalized sinc `sin(πx)/(πx)`, equal to 1 at 0. -/
noncomputable def npSinc (x : ℝ) : ℝ :=
  if x = 0 then 1 else Real.sin (Real.pi * x) / (Real.pi * x)

/-- Models the Fresnel sine integral `S` of `scipy.special.fresnel`:
`S(x) = ∫₀ˣ sin(π t² / 2) dt`. -/
noncomputable def fresnelS (x : ℝ) : ℝ := ∫ t in (0 : ℝ)..x, Real.sin (Real.pi * t ^ 2 / 2)

/-- Models the Fresnel cosine integral `C` of `scipy.special.fresnel`:
`C(x) = ∫₀ˣ cos(π t² / 2) dt`. -/
noncomputable def fresnelC (x : ℝ) : ℝ := ∫ t in (0 : ℝ)..x, Real.cos (Real.pi * t ^ 2 / 2)

/-- Unnormalized Fresnel intensity `(C1-C2)² + (S1-S2)²` at the source's
arguments `arg1 = sqrt(N/2) - u·sqrt(2/N)` and `arg2 = -sqrt(N/2) - u·sqrt(2/N)`. -/
noncomputable def fresnelNumerator (u N : ℝ) : ℝ :=
  (fresnelC (Real.sqrt (N / 2) - u * Real.sqrt (2 / N)) -
      fresnelC (-Real.sqrt (N / 2) - u * Real.sqrt (2 / N))) ^ 2 +
    (fresnelS (Real.sqrt (N / 2) - u * Real.sqrt (2 / N)) -
      fresnelS (-Real.sqrt (N / 2) - u * Real.sqrt (2 / N))) ^ 2

/-- Normalizing central intensity `intensidad_central`, the same expression
evaluated at arguments `±sqrt(N/2)`. -/
noncomputable def fresnelCentral (N : ℝ) : ℝ :=
  (fresnelC (Real.sqrt (N / 2)) - fresnelC (-Real.sqrt (N / 2))) ^ 2 +
    (fresnelS (Real.sqrt (N / 2)) - fresnelS (-Real.sqrt (N / 2))) ^ 2

/-- Embeds `calcular_patron_fresnel` (`src/punto3/Punto_3_Fresnel.py`). -/
noncomputable def calcular_patron_fresnel (u N : ℝ) : ℝ :=
  if N < 1e-6 then npSinc u ^ 2
  else if fresnelCentral N < 1e-12 then fresnelNumerator u N
  else fresnelNumerator u N / fresnelCentral N

/-- Transcribes claim C2's reference definition with its `±sqrt(N/2) ∓
u·sqrt(2/N)` argument pair read with paired opposite signs, i.e. `arg1 =
sqrt(N/2) - u·sqrt(2/N)` and `arg2 = -sqrt(N/2) + u·sqrt(2/N)`. -/
noncomputable def claimFresnelIntensity (u N : ℝ) : ℝ :=
  if N < 1e-6 then npSinc u ^ 2
  else
    let a1 := Real.sqrt (N / 2) - u * Real.sqrt (2 / N)
    let a2 := -Real.sqrt (N / 2) + u * Real.sqrt (2 / N)
    let num := (fresnelC a1 - fresnelC a2) ^ 2 + (fresnelS a1 - fresnelS a2) ^ 2
    if fresnelCentral N < 1e-12 then num else num / fresnelCentral N

/-- Transcribes the amended reference definition: both arguments subtract
`u·sqrt(2/N)`, i.e. `arg1 = sqrt(N/2) - u·sqrt(2/N)` and `arg2 = -sqrt(N/2) -
u·sqrt(2/N)`; divide by the same expression at `±sqrt(N/2)` unless that
denominator is below `1e-12`. -/
noncomputable def referenceFresnelIntensity (u N : ℝ) : ℝ :=
  if N < 1e-6 then npSinc u ^ 2
  else
    let a1 := Real.sqrt (N / 2) - u * Real.sqrt (2 / N)
    let a2 := -Real.sqrt (N / 2) - u * Real.sqrt (2 / N)
    let num := (fresnelC a1 - fresnelC a2) ^ 2 + (fresnelS a1 - fresnelS a2) ^ 2
    let den := (fresnelC (Real.sqrt (N / 2)) - fresnelC (-Real.sqrt (N / 2))) ^ 2 +
      (fresnelS (Real.sqrt (N / 2)) - fresnelS (-Real.sqrt (N / 2))) ^ 2
    if den < 1e-12 then num else num / den

end Punto3

section Helpers

theorem pyInt_nonpos {q : ℚ} (h : q ≤ 0) : pyInt q ≤ 0 := by
  unfold pyInt
  split
  · exact Int.ceil_le.mpr (by exact_mod_cast h)
  · exact (Int.floor_le_floor h).trans (le_of_eq Int.floor_zero)

theorem le_pyInt_of_natCast_le {q : ℚ} {m : ℕ} (h : (m : ℚ) ≤ q) : (m : ℤ) ≤ pyInt q := by
  unfold pyInt
  have hq : ¬ q < 0 := not_lt.mpr ((Nat.cast_nonneg m).trans h)
  rw [if_neg hq]
  exact Int.le_floor.mpr (by exact_mod_cast h)

end Helpers

section ClaimC10

theorem square_eq_single_slit (rows cols : ℕ) (s cx cy : ℚ) (i j : ℕ) :
    DiffractionCalculator.create_square_aperture rows cols s cx cy i j =
      DiffractionCalculator.create_single_slit_aperture rows cols s s cx cy i j := rfl

theorem single_slit_zero_or_one (rows cols : ℕ) (w h cx cy : ℚ) (i j : ℕ) :
    DiffractionCalculator.create_single_slit_aperture rows cols w h cx cy i j = 0 ∨
      DiffractionCalculator.create_single_slit_aperture rows cols w h cx cy i j = 1 := by
  simp only [DiffractionCalculator.create_single_slit_aperture]
  split
  · exact Or.inr rfl
  · exact Or.inl rfl

theorem single_slit_support (rows cols : ℕ) (w h cx cy : ℚ) (i j : ℕ)
    (hone : DiffractionCalculator.create_single_slit_aperture rows cols w h cx cy i j = 1) :
    i < rows ∧ j < cols := by
  simp only [DiffractionCalculator.create_single_slit_aperture] at hone
  split at hone
  · rename_i hc
    obtain ⟨-, hi, -, hj⟩ := hc
    constructor
    · exact_mod_cast hi.trans_le (min_le_left _ _)
    · exact_mod_cast hj.trans_le (min_le_left _ _)
  · exact absurd hone (by norm_num)

theorem single_slit_outside_zero (rows cols : ℕ) (w h cx cy : ℚ)
    (hout : cx + w / 2 ≤ 0 ∨ (cols : ℚ) ≤ cx - w / 2 ∨
      cy + h / 2 ≤ 0 ∨ (rows : ℚ) ≤ cy - h / 2) (i j : ℕ) :
    DiffractionCalculator.create_single_slit_aperture rows cols w h cx cy i j = 0 := by
  simp only [DiffractionCalculator.create_single_slit_aperture]
  rw [if_neg]
  rintro ⟨hys, hyi, hxs, hxj⟩
  rcases hout with hcase | hcase | hcase | hcase
  · have : (j : ℤ) < 0 := hxj.trans_le ((min_le_right _ _).trans (pyInt_nonpos hcase))
    omega
  · have : (cols : ℤ) ≤ (j : ℤ) :=
      ((le_pyInt_of_natCast_le hcase).trans (le_max_right 0 _)).trans hxs
    have : (j : ℤ) < (cols : ℤ) := hxj.trans_le (min_le_left _ _)
    omega
  · have : (i : ℤ) < 0 := hyi.trans_le ((min_le_right _ _).trans (pyInt_nonpos hcase))
    omega
  · have : (rows : ℤ) ≤ (i : ℤ) :=
      ((le_pyInt_of_natCast_le hcase).trans (le_max_right 0 _)).trans hys
    have : (i : ℤ) < (rows : ℤ) := hyi.trans_le (min_le_left _ _)
    omega

/-- C10: the square and single-slit builders clamp their slice indices into
the grid, produce only 0/1 values with support inside the `rows × cols` grid,
and return the all-zero mask whenever the shape lies entirely outside the
grid; this holds for all real centers and dimensions, in particular for the
positive ones of the claim. -/
theorem c10_slice_apertures_safe (rows cols : ℕ) (s w h cx cy : ℚ) :
    ((∀ i j, DiffractionCalculator.create_square_aperture rows cols s cx cy i j = 0 ∨
        DiffractionCalculator.create_square_aperture rows cols s cx cy i j = 1) ∧
      (∀ i j, DiffractionCalculator.create_square_aperture rows cols s cx cy i j = 1 →
        i < rows ∧ j < cols) ∧
      ((cx + s / 2 ≤ 0 ∨ (cols : ℚ) ≤ cx - s / 2 ∨ cy + s / 2 ≤ 0 ∨
          (rows : ℚ) ≤ cy - s / 2) →
        ∀ i j, DiffractionCalculator.create_square_aperture rows cols s cx cy i j = 0)) ∧
    ((∀ i j, DiffractionCalculator.create_single_slit_aperture rows cols w h cx cy i j = 0 ∨
        DiffractionCalculator.create_single_slit_aperture rows cols w h cx cy i j = 1) ∧
      (∀ i j, DiffractionCalculator.create_single_slit_aperture rows cols w h cx cy i j = 1 →
        i < rows ∧ j < cols) ∧
      ((cx + w / 2 ≤ 0 ∨ (cols : ℚ) ≤ cx - w / 2 ∨ cy + h / 2 ≤ 0 ∨
          (rows : ℚ) ≤ cy - h / 2) →
        ∀ i j, DiffractionCalculator.create_single_slit_aperture rows cols w h cx cy i j = 0)) := by
  refine ⟨⟨?_, ?_, ?_⟩, ?_, ?_, ?_⟩
  · intro i j
    rw [square_eq_single_slit]
    exact single_slit_zero_or_one rows cols s s cx cy i j
  · intro i j hone
    rw [square_eq_single_slit] at hone
    exact single_slit_support rows cols s s cx cy i j hone
  · intro hout i j
    rw [square_eq_single_slit]
    exact single_slit_outside_zero rows cols s s cx cy hout i j
  · intro i j
    exact single_slit_zero_or_one rows cols w h cx cy i j
  · intro i j hone
    exact single_slit_support rows cols w h cx cy i j hone
  · intro hout i j
    exact single_slit_outside_zero rows cols w h cx cy hout i j

end ClaimC10

section ClaimC8

theorem circular_pointwise_le (r1 r2 cx cy : ℚ) (h0 : 0 ≤ r1) (h12 : r1 ≤ r2) (i j : ℕ) :
    DiffractionCalculator.create_circular_aperture r1 cx cy i j ≤
      DiffractionCalculator.create_circular_aperture r2 cx cy i j := by
  unfold DiffractionCalculator.create_circular_aperture
  split
  · rename_i hc
    rw [if_pos (hc.trans (pow_le_pow_left₀ h0 h12 2))]
  · split
    · norm_num
    · exact le_rfl

/-- C8: for nonnegative radii `r1 ≤ r2`, every cell of the circular aperture
set to 1 at radius `r1` is set to 1 at radius `r2`, the mask population (sum
over any `rows × cols` grid) is monotonically non-decreasing in the radius,
and the GUI's circular membership test is likewise monotone in its radius
parameter. -/
theorem c8_circular_population_monotone (rows cols : ℕ) (r1 r2 cx cy : ℚ)
    (h0 : 0 ≤ r1) (h12 : r1 ≤ r2) :
    (∀ i j, DiffractionCalculator.create_circular_aperture r1 cx cy i j = 1 →
        DiffractionCalculator.create_circular_aperture r2 cx cy i j = 1) ∧
    DiffractionCalculator.maskSum rows cols
        (DiffractionCalculator.create_circular_aperture r1 cx cy) ≤
      DiffractionCalculator.maskSum rows cols
        (DiffractionCalculator.create_circular_aperture r2 cx cy) ∧
    (∀ (p q : FFTGui.GuiParams) (x y : ℝ), p.radiusParam ≤ q.radiusParam →
      FFTGui.baseAperture p FFTGui.GuiApertureType.circular x y = 1 →
      FFTGui.baseAperture q FFTGui.GuiApertureType.circular x y = 1) := by
  refine ⟨fun i j hone => ?_, ?_, fun p q x y hpq hone => ?_⟩
  · unfold DiffractionCalculator.create_circular_aperture at *
    split at hone
    · rename_i hc
      rw [if_pos (hc.trans (pow_le_pow_left₀ h0 h12 2))]
    · exact absurd hone (by norm_num)
  · unfold DiffractionCalculator.maskSum
    refine Finset.sum_le_sum fun i _ => Finset.sum_le_sum fun j _ => ?_
    exact circular_pointwise_le r1 r2 cx cy h0 h12 i j
  · simp only [FFTGui.baseAperture] at *
    split at hone
    · rename_i hc
      rw [if_pos (hc.trans hpq)]
    · exact absurd hone (by norm_num)

theorem c8_circular_population_monotone_witness :
    (0 : ℚ) ≤ 1 ∧ (1 : ℚ) ≤ 2 ∧
      DiffractionCalculator.maskSum 3 3 (DiffractionCalculator.create_circular_aperture 1 1 1) ≤
        DiffractionCalculator.maskSum 3 3 (DiffractionCalculator.create_circular_aperture 2 1 1) :=
  ⟨by norm_num, by norm_num,
    (c8_circular_population_monotone 3 3 1 2 1 1 (by norm_num) (by norm_num)).2.1⟩

end ClaimC8

section ClaimC9

/-- C9: with disorder amount 0 the scatter builder is deterministic — the
returned mask does not depend on the random stream or its position, and no
draw is consumed; with positive disorder amount every call consumes 18 draws
(two per sub-aperture), and two different streams can produce different
masks, exhibited at the concrete parameters `disorderExample`. -/
theorem c9_disorder_randomness (p : Punto2Sim.DisorderParams) :
    (p.disorderAmount = 0 →
      (∀ rng1 k1 rng2 k2,
        (Punto2Sim.create_disorder_aperture p rng1 k1).1 =
          (Punto2Sim.create_disorder_aperture p rng2 k2).1) ∧
      ∀ rng k, (Punto2Sim.create_disorder_aperture p rng k).2 = k) ∧
    (0 < p.disorderAmount →
      ∀ rng k, (Punto2Sim.create_disorder_aperture p rng k).2 = k + 18) ∧
    (Punto2Sim.create_disorder_aperture Punto2Sim.disorderExample
        (fun _ => 1 / 2) 0).1 7 6 = 1 ∧
    (Punto2Sim.create_disorder_aperture Punto2Sim.disorderExample
        (fun _ => 99 / 100) 0).1 7 6 = 0 := by
  refine ⟨fun h => ⟨fun rng1 k1 rng2 k2 => ?_, fun rng k => ?_⟩, fun h rng k => ?_, ?_, ?_⟩
  · simp [Punto2Sim.create_disorder_aperture, Punto2Sim.placeDisorderCircles,
      Punto2Sim.disorderPositions, h]
  · simp [Punto2Sim.create_disorder_aperture, Punto2Sim.placeDisorderCircles,
      Punto2Sim.disorderPositions, h]
  · simp [Punto2Sim.create_disorder_aperture, Punto2Sim.placeDisorderCircles,
      Punto2Sim.disorderPositions, h]
  · norm_num [Punto2Sim.create_disorder_aperture, Punto2Sim.placeDisorderCircles,
      Punto2Sim.disorderPositions, Punto2Sim.npUniform, Punto2Sim.disorderExample]
  · norm_num [Punto2Sim.create_disorder_aperture, Punto2Sim.placeDisorderCircles,
      Punto2Sim.disorderPositions, Punto2Sim.npUniform, Punto2Sim.disorderExample]

end ClaimC9

theorem c10_slice_apertures_safe_witness :
    DiffractionCalculator.create_square_aperture 2 2 1 10 0 0 0 = 0 :=
  (c10_slice_apertures_safe 2 2 1 1 1 10 0).1.2.2 (Or.inr (Or.inl (by norm_num))) 0 0

theorem c9_disorder_randomness_witness :
    (Punto2Sim.create_disorder_aperture ⟨9, 1, 3, 2, 0⟩ (fun _ => 1 / 2) 5).2 = 5 :=
  ((c9_disorder_randomness ⟨9, 1, 3, 2, 0⟩).1 rfl).2 (fun _ => 1 / 2) 5

section ClaimC7

theorem baseAperture_mem_unit (p : FFTGui.GuiParams) (t : FFTGui.GuiApertureType) (x y : ℝ) :
    0 ≤ FFTGui.baseAperture p t x y ∧ FFTGui.baseAperture p t x y ≤ 1 := by
  cases t <;> simp only [FFTGui.baseAperture] <;> split <;> norm_num

theorem apertureGrid_mem_unit (n : ℕ) (pixelSize : ℝ) (p : FFTGui.GuiParams)
    (t : FFTGui.GuiApertureType) (i j : ℤ) :
    0 ≤ FFTGui.apertureGrid n pixelSize p t i j ∧ FFTGui.apertureGrid n pixelSize p t i j ≤ 1 := by
  unfold FFTGui.apertureGrid
  split
  · exact baseAperture_mem_unit p t _ _
  · norm_num

theorem rotateBilinear_mem_unit (g : ℤ → ℤ → ℝ) (angleDeg c : ℝ) (i j : ℤ)
    (hg : ∀ a b, 0 ≤ g a b ∧ g a b ≤ 1) :
    0 ≤ FFTGui.rotateBilinear g angleDeg c i j ∧ FFTGui.rotateBilinear g angleDeg c i j ≤ 1 := by
  simp only [FFTGui.rotateBilinear]
  set u := c + ((i : ℝ) - c) * Real.cos (angleDeg * Real.pi / 180) -
    ((j : ℝ) - c) * Real.sin (angleDeg * Real.pi / 180) with hu
  set v := c + ((i : ℝ) - c) * Real.sin (angleDeg * Real.pi / 180) +
    ((j : ℝ) - c) * Real.cos (angleDeg * Real.pi / 180) with hv
  have hdu0 : (0 : ℝ) ≤ u - (⌊u⌋ : ℝ) := sub_nonneg.mpr (Int.floor_le u)
  have hdu1 : u - (⌊u⌋ : ℝ) ≤ 1 := by
    have := Int.lt_floor_add_one u
    linarith
  have hdv0 : (0 : ℝ) ≤ v - (⌊v⌋ : ℝ) := sub_nonneg.mpr (Int.floor_le v)
  have hdv1 : v - (⌊v⌋ : ℝ) ≤ 1 := by
    have := Int.lt_floor_add_one v
    linarith
  obtain ⟨h00a, h00b⟩ := hg ⌊u⌋ ⌊v⌋
  obtain ⟨h01a, h01b⟩ := hg ⌊u⌋ (⌊v⌋ + 1)
  obtain ⟨h10a, h10b⟩ := hg (⌊u⌋ + 1) ⌊v⌋
  obtain ⟨h11a, h11b⟩ := hg (⌊u⌋ + 1) (⌊v⌋ + 1)
  constructor
  · have t1 : (0 : ℝ) ≤ (1 - (u - (⌊u⌋ : ℝ))) * (1 - (v - (⌊v⌋ : ℝ))) * g ⌊u⌋ ⌊v⌋ :=
      mul_nonneg (mul_nonneg (by linarith) (by linarith)) h00a
    have t2 : (0 : ℝ) ≤ (1 - (u - (⌊u⌋ : ℝ))) * (v - (⌊v⌋ : ℝ)) * g ⌊u⌋ (⌊v⌋ + 1) :=
      mul_nonneg (mul_nonneg (by linarith) hdv0) h01a
    have t3 : (0 : ℝ) ≤ (u - (⌊u⌋ : ℝ)) * (1 - (v - (⌊v⌋ : ℝ))) * g (⌊u⌋ + 1) ⌊v⌋ :=
      mul_nonneg (mul_nonneg hdu0 (by linarith)) h10a
    have t4 : (0 : ℝ) ≤ (u - (⌊u⌋ : ℝ)) * (v - (⌊v⌋ : ℝ)) * g (⌊u⌋ + 1) (⌊v⌋ + 1) :=
      mul_nonneg (mul_nonneg hdu0 hdv0) h11a
    linarith
  · have t1 : (1 - (u - (⌊u⌋ : ℝ))) * (1 - (v - (⌊v⌋ : ℝ))) * g ⌊u⌋ ⌊v⌋ ≤
        (1 - (u - (⌊u⌋ : ℝ))) * (1 - (v - (⌊v⌋ : ℝ))) :=
      mul_le_of_le_one_right (mul_nonneg (by linarith) (by linarith)) h00b
    have t2 : (1 - (u - (⌊u⌋ : ℝ))) * (v - (⌊v⌋ : ℝ)) * g ⌊u⌋ (⌊v⌋ + 1) ≤
        (1 - (u - (⌊u⌋ : ℝ))) * (v - (⌊v⌋ : ℝ)) :=
      mul_le_of_le_one_right (mul_nonneg (by linarith) hdv0) h01b
    have t3 : (u - (⌊u⌋ : ℝ)) * (1 - (v - (⌊v⌋ : ℝ))) * g (⌊u⌋ + 1) ⌊v⌋ ≤
        (u - (⌊u⌋ : ℝ)) * (1 - (v - (⌊v⌋ : ℝ))) :=
      mul_le_of_le_one_right (mul_nonneg hdu0 (by linarith)) h10b
    have t4 : (u - (⌊u⌋ : ℝ)) * (v - (⌊v⌋ : ℝ)) * g (⌊u⌋ + 1) (⌊v⌋ + 1) ≤
        (u - (⌊u⌋ : ℝ)) * (v - (⌊v⌋ : ℝ)) :=
      mul_le_of_le_one_right (mul_nonneg hdu0 hdv0) h11b
    nlinarith [t1, t2, t3, t4]

/-- C7: every mask the rasterizers return has all values in the closed
interval [0,1]: the GUI `create_aperture` for every aperture type, center
grid, and rotation angle (bilinear resampling included), and the summed and
clipped double-slit builder of `diffraction_calculator.py`. -/
theorem c7_masks_in_unit_interval :
    (∀ (n : ℕ) (pixelSize : ℝ) (p : FFTGui.GuiParams) (t : FFTGui.GuiApertureType)
        (rotationAngle : ℝ) (i j : ℤ),
        0 ≤ FFTGui.create_aperture n pixelSize p t rotationAngle i j ∧
          FFTGui.create_aperture n pixelSize p t rotationAngle i j ≤ 1) ∧
    (∀ (rows cols : ℕ) (w h sep cx cy : ℚ) (i j : ℕ),
        0 ≤ DiffractionCalculator.create_double_slit_aperture rows cols w h sep cx cy i j ∧
          DiffractionCalculator.create_double_slit_aperture rows cols w h sep cx cy i j ≤ 1) := by
  constructor
  · intro n pixelSize p t rotationAngle i j
    unfold FFTGui.create_aperture
    split
    · exact apertureGrid_mem_unit n pixelSize p t i j
    · exact rotateBilinear_mem_unit _ _ _ i j (fun a b => apertureGrid_mem_unit n pixelSize p t a b)
  · intro rows cols w h sep cx cy i j
    unfold DiffractionCalculator.create_double_slit_aperture DiffractionCalculator.npClip01
    constructor
    · exact le_min (by norm_num) (le_max_left 0 _)
    · exact min_le_left 1 _

end ClaimC7

section ClaimC3

theorem annular_inverted_empty (n : ℕ) (pix : ℝ) (p : FFTGui.GuiParams)
    (hinv : p.rOuterParam < p.rInnerParam) (i j : ℤ) :
    FFTGui.apertureGrid n pix p FFTGui.GuiApertureType.annular i j = 0 := by
  unfold FFTGui.apertureGrid
  split
  · simp only [FFTGui.baseAperture]
    rw [if_neg]
    rintro ⟨h1, h2⟩
    exact absurd (h2.trans h1) (not_le.mpr hinv)
  · rfl

/-- C3 counterexample: on the GUI's own 512×512 grid with 1 µm pixels, the
annular rasterizer applied to the inverted radii `inner = 60e-6 > outer =
10e-6` returns the empty (all-zero) mask — it does not clamp the radii. -/
theorem c3_rasterizer_returns_empty_mask :
    (∑ i ∈ Finset.range 512, ∑ j ∈ Finset.range 512,
        FFTGui.create_aperture 512 1e-6
          ⟨100e-6, 100e-6, 50e-6, 200e-6, 10e-6, 60e-6⟩
          FFTGui.GuiApertureType.annular 0 (i : ℤ) (j : ℤ)) = 0 := by
  refine Finset.sum_eq_zero fun i _ => Finset.sum_eq_zero fun j _ => ?_
  unfold FFTGui.create_aperture
  rw [if_pos rfl]
  exact annular_inverted_empty _ _ _ (by norm_num) _ _

/-- C3 amended: the clamping of an inverted annulus happens in the
parameter-update handlers, not in the rasterizer: `update_parameters` of the
FFT GUI resets the inner radius to `max(1e-6, r_outer - 1e-6)` whenever it
reaches or exceeds the outer radius (so the stored inner radius never exceeds
the outer radius as long as the outer radius is at least 1e-6, the slider
minimum), and `update_params` of `Punto_1.py` resets `R1` to `R2` whenever
`R1 > R2`. -/
theorem c3_update_handlers_clamp (rInner rOuter R1 R2 : ℝ) (hro : 1e-6 ≤ rOuter) :
    FFTGui.updateClampRInner rInner rOuter ≤ rOuter ∧ Punto1.updateClampR1 R1 R2 ≤ R2 := by
  constructor
  · unfold FFTGui.updateClampRInner
    split
    · exact max_le hro (by linarith)
    · rename_i hlt
      linarith [not_le.mp hlt]
  · unfold Punto1.updateClampR1
    split
    · exact le_rfl
    · rename_i hle
      exact not_lt.mp hle

theorem c3_update_handlers_clamp_witness :
    FFTGui.updateClampRInner 5e-6 2e-6 ≤ 2e-6 ∧ Punto1.updateClampR1 3 2 ≤ 2 :=
  c3_update_handlers_clamp 5e-6 2e-6 3 2 (by norm_num)

end ClaimC3

section ClaimC4

/-- C4: the analytic Fraunhofer intensity equals
`I_source · (n²/(λ²z²)) · (rect² + ring² + interference)` with the
interference term `2 · rect_field_amplitude · ring_field_amplitude ·
cos(k·D·y/z)`, `k = 2π/λ`, floored at 0, and consequently every returned
intensity value is non-negative.  The radii only need to be non-negative. -/
theorem c4_analytic_intensity_structure (p : Punto1.P1Params) (x y : ℝ)
    (hR1 : 0 ≤ p.R1) (hR2 : 0 ≤ p.R2) :
    Punto1.calculate_intensity p x y =
      max 0 (p.I_source * (p.n ^ 2 / (p.lam ^ 2 * p.z ^ 2)) *
        (Punto1.rect_field_amplitude p x y ^ 2 + Punto1.ring_field_amplitude p x y ^ 2 +
          2 * Punto1.rect_field_amplitude p x y * Punto1.ring_field_amplitude p x y *
            Real.cos (2 * Real.pi / p.lam * p.D * y / p.z))) ∧
    0 ≤ Punto1.calculate_intensity p x y := by
  constructor
  · simp only [Punto1.calculate_intensity, Punto1.rect_field_amplitude,
      Punto1.ring_field_amplitude]
    have e1 : (if 0 < p.R1 then
          p.R1 ^ 2 * Punto1.bessel_j1_normalized (Punto1.kr_safe p x y * p.R1 / p.z) else 0) =
        p.R1 ^ 2 * Punto1.bessel_j1_normalized (Punto1.kr_safe p x y * p.R1 / p.z) := by
      rcases hR1.eq_or_lt with h | h
      · rw [if_neg (by rw [← h]; exact lt_irrefl 0), ← h]
        norm_num
      · rw [if_pos h]
    have e2 : (if 0 < p.R2 then
          p.R2 ^ 2 * Punto1.bessel_j1_normalized (Punto1.kr_safe p x y * p.R2 / p.z) else 0) =
        p.R2 ^ 2 * Punto1.bessel_j1_normalized (Punto1.kr_safe p x y * p.R2 / p.z) := by
      rcases hR2.eq_or_lt with h | h
      · rw [if_neg (by rw [← h]; exact lt_irrefl 0), ← h]
        norm_num
      · rw [if_pos h]
    rw [e1, e2]
    congr 1
    ring
  · simp only [Punto1.calculate_intensity]
    exact le_max_left 0 _

theorem c4_analytic_intensity_structure_witness :
    0 ≤ Punto1.calculate_intensity ⟨1, 1, 1, 1, 1, 1, 1, 1, 1⟩ 0 0 :=
  (c4_analytic_intensity_structure ⟨1, 1, 1, 1, 1, 1, 1, 1, 1⟩ 0 0
    (by norm_num) (by norm_num)).2

end ClaimC4

section ClaimC6

theorem one_le_factorial_prod (m : ℕ) :
    (1 : ℝ) ≤ (m.factorial : ℝ) * ((m + 1).factorial : ℝ) := by
  have h1 : (1 : ℝ) ≤ (m.factorial : ℝ) := by exact_mod_cast m.factorial_pos
  have h2 : (1 : ℝ) ≤ ((m + 1).factorial : ℝ) := by exact_mod_cast (m + 1).factorial_pos
  nlinarith

theorem abs_besselTerm_le (m : ℕ) (x : ℝ) :
    |Punto1.besselTerm m x| ≤ |x / 2| ^ (2 * m + 1) := by
  unfold Punto1.besselTerm
  rw [abs_div, abs_mul, abs_pow, abs_neg, abs_one, one_pow, one_mul, abs_pow]
  have hd : (1 : ℝ) ≤ |(m.factorial : ℝ) * ((m + 1).factorial : ℝ)| := by
    rw [abs_of_nonneg (by positivity)]
    exact one_le_factorial_prod m
  exact div_le_self (by positivity) hd

theorem half_pow_eq (m : ℕ) : ((1 : ℝ) / 2) ^ (2 * m + 1) = 1 / 2 * (1 / 4) ^ m := by
  rw [pow_add, pow_mul, pow_one]
  norm_num [mul_comm]

theorem besselSummable {x : ℝ} (hx : |x| ≤ 1) :
    Summable fun m => Punto1.besselTerm m x := by
  refine Summable.of_norm_bounded (fun m => 1 / 2 * (1 / 4) ^ m)
    ((summable_geometric_of_lt_one (by norm_num) (by norm_num)).mul_left (1 / 2)) fun m => ?_
  rw [Real.norm_eq_abs]
  calc |Punto1.besselTerm m x| ≤ |x / 2| ^ (2 * m + 1) := abs_besselTerm_le m x
    _ ≤ (1 / 2 : ℝ) ^ (2 * m + 1) := by
        apply pow_le_pow_left₀ (abs_nonneg _)
        rw [abs_div]
        rw [abs_of_pos (by norm_num : (0 : ℝ) < 2)]
        linarith
    _ = 1 / 2 * (1 / 4) ^ m := half_pow_eq m

theorem abs_besselTail_le {x : ℝ} (hx : |x| ≤ 1) :
    |tsum fun m => Punto1.besselTerm (m + 1) x| ≤ |x| ^ 3 / 6 := by
  have hxx : |x / 2| ≤ 1 / 2 := by
    rw [abs_div, abs_of_pos (by norm_num : (0 : ℝ) < 2)]
    linarith
  have hsum : Summable fun m => Punto1.besselTerm (m + 1) x :=
    (summable_nat_add_iff 1).mpr (besselSummable hx)
  have hgeo : Summable fun m : ℕ => |x| ^ 3 / 8 * (1 / 4) ^ m :=
    (summable_geometric_of_lt_one (by norm_num) (by norm_num)).mul_left _
  have habs : Summable fun m => ‖Punto1.besselTerm (m + 1) x‖ := by
    simpa [Real.norm_eq_abs] using ((summable_nat_add_iff 1).mpr (besselSummable hx)).abs
  have hterm : ∀ m : ℕ, ‖Punto1.besselTerm (m + 1) x‖ ≤ |x| ^ 3 / 8 * (1 / 4) ^ m := by
    intro m
    rw [Real.norm_eq_abs]
    calc |Punto1.besselTerm (m + 1) x| ≤ |x / 2| ^ (2 * (m + 1) + 1) := abs_besselTerm_le _ x
      _ = |x / 2| ^ 3 * (|x / 2| ^ 2) ^ m := by
          rw [← pow_mul, ← pow_add]
          ring_nf
      _ ≤ |x / 2| ^ 3 * (1 / 4) ^ m := by
          apply mul_le_mul_of_nonneg_left _ (by positivity)
          apply pow_le_pow_left₀ (by positivity)
          calc |x / 2| ^ 2 ≤ (1 / 2 : ℝ) ^ 2 := pow_le_pow_left₀ (abs_nonneg _) hxx 2
            _ = 1 / 4 := by norm_num
      _ = |x| ^ 3 / 8 * (1 / 4) ^ m := by
          rw [abs_div, abs_of_pos (by norm_num : (0 : ℝ) < 2)]
          ring
  calc |tsum fun m => Punto1.besselTerm (m + 1) x| ≤
      tsum fun m => ‖Punto1.besselTerm (m + 1) x‖ := by
        simpa [Real.norm_eq_abs] using norm_tsum_le_tsum_norm habs
    _ ≤ tsum fun m : ℕ => |x| ^ 3 / 8 * (1 / 4) ^ m := tsum_le_tsum hterm habs hgeo
    _ = |x| ^ 3 / 8 * (1 - 1 / 4)⁻¹ := by
        rw [tsum_mul_left, tsum_geometric_of_lt_one (by norm_num) (by norm_num)]
    _ = |x| ^ 3 / 6 := by ring
  
theorem besselTerm_zero (x : ℝ) : Punto1.besselTerm 0 x = x / 2 := by
  unfold Punto1.besselTerm
  norm_num

theorem abs_besselJ1_sub_half {x : ℝ} (hx : |x| ≤ 1) :
    |Punto1.besselJ1 x - x / 2| ≤ |x| ^ 3 / 6 := by
  have h := tsum_eq_zero_add (besselSummable hx)
  unfold Punto1.besselJ1
  rw [h, besselTerm_zero]
  simpa using abs_besselTail_le hx

/-- C6: the stabilized helpers return their limiting constants on the whole
stabilization band — `sinc x = 1` and `J1(x)/x = 0.5` exactly whenever
`|x| < 1e-10` — and are continuous across the threshold: at the boundary
argument `1e-10` the formula branches differ from those constants by at most
`1e-20`. -/
theorem c6_stabilized_helpers_correct :
    (∀ x : ℝ, |x| < 1e-10 → Punto1.sinc x = 1) ∧
    (∀ x : ℝ, |x| < 1e-10 → Punto1.bessel_j1_normalized x = 0.5) ∧
    |Punto1.sinc 1e-10 - 1| ≤ 1e-20 ∧
    |Punto1.bessel_j1_normalized 1e-10 - 0.5| ≤ 1e-20 := by
  refine ⟨fun x hx => if_pos hx, fun x hx => if_pos hx, ?_, ?_⟩
  · have hbr : Punto1.sinc 1e-10 = Real.sin 1e-10 / 1e-10 := by
      unfold Punto1.sinc
      rw [if_neg (by norm_num [abs_of_nonneg])]
    rw [hbr]
    have ht : (0 : ℝ) < 1e-10 := by norm_num
    have h1 : Real.sin 1e-10 / 1e-10 < 1 := (div_lt_one ht).mpr (Real.sin_lt ht)
    have h2 : (1 : ℝ) - 1e-20 / 4 < Real.sin 1e-10 / 1e-10 := by
      rw [lt_div_iff ht]
      nlinarith [Real.sin_gt_sub_cube ht (by norm_num : (1e-10 : ℝ) ≤ 1)]
    rw [abs_le]
    constructor <;> nlinarith
  · have hbr : Punto1.bessel_j1_normalized 1e-10 = Punto1.besselJ1 1e-10 / 1e-10 := by
      unfold Punto1.bessel_j1_normalized
      rw [if_neg (by norm_num [abs_of_nonneg])]
    rw [hbr]
    have ht : (0 : ℝ) < 1e-10 := by norm_num
    have hb := abs_besselJ1_sub_half (x := 1e-10) (by rw [abs_of_pos ht]; norm_num)
    rw [abs_of_pos ht] at hb
    have key : Punto1.besselJ1 1e-10 / 1e-10 - 0.5 = (Punto1.besselJ1 1e-10 - 1e-10 / 2) / 1e-10 := by
      field_simp
      ring
    rw [key, abs_div, abs_of_pos ht]
    rw [div_le_iff ht]
    nlinarith [hb]

theorem c6_stabilized_helpers_correct_witness :
    Punto1.sinc 0 = 1 ∧ Punto1.bessel_j1_normalized 0 = 0.5 :=
  ⟨c6_stabilized_helpers_correct.1 0 (by norm_num),
    c6_stabilized_helpers_correct.2.1 0 (by norm_num)⟩

end ClaimC6

section ClaimsFresnel

theorem fresnelC_zero : Punto3.fresnelC 0 = 0 := intervalIntegral.integral_same

theorem fresnelC_neg (x : ℝ) : Punto3.fresnelC (-x) = -Punto3.fresnelC x := by
  unfold Punto3.fresnelC
  have h : (∫ t in (0 : ℝ)..(-x), Real.cos (Real.pi * t ^ 2 / 2)) =
      ∫ t in (0 : ℝ)..(-x), Real.cos (Real.pi * (-t) ^ 2 / 2) := by
    congr 1
    funext t
    ring_nf
  rw [h, intervalIntegral.integral_comp_neg (fun t => Real.cos (Real.pi * t ^ 2 / 2))]
  rw [neg_zero, intervalIntegral.integral_symm, neg_neg]

theorem fresnelC_lower {s : ℝ} (h0 : 0 ≤ s) (h23 : s ^ 2 ≤ 2 / 3) :
    s / 2 ≤ Punto3.fresnelC s := by
  unfold Punto3.fresnelC
  have hcont : Continuous fun t : ℝ => Real.cos (Real.pi * t ^ 2 / 2) := by continuity
  have hmono : ∀ t ∈ Set.Icc (0 : ℝ) s, (1 : ℝ) / 2 ≤ Real.cos (Real.pi * t ^ 2 / 2) := by
    intro t ht
    have harg : Real.pi * t ^ 2 / 2 ≤ Real.pi / 3 := by
      have ht2 : t ^ 2 ≤ 2 / 3 := le_trans (pow_le_pow_left₀ ht.1 ht.2 2) h23
      nlinarith [Real.pi_pos]
    have hkey := Real.cos_le_cos_of_nonneg_of_le_pi (by positivity)
      (by nlinarith [Real.pi_pos]) harg
    rw [Real.cos_pi_div_three] at hkey
    exact hkey
  have hint := intervalIntegral.integral_mono_on (μ := MeasureTheory.volume) h0
    (intervalIntegrable_const) (hcont.intervalIntegrable 0 s) hmono
  rw [intervalIntegral.integral_const, smul_eq_mul, sub_zero] at hint
  linarith

theorem sqrt_one_sixteenth : Real.sqrt ((1 : ℝ) / 8 / 2) = 1 / 4 := by
  rw [show ((1 : ℝ) / 8 / 2) = (1 / 4) ^ 2 by norm_num]
  exact Real.sqrt_sq (by norm_num)

theorem sqrt_sixteen : Real.sqrt (2 / ((1 : ℝ) / 8)) = 4 := by
  rw [show (2 / ((1 : ℝ) / 8)) = (4 : ℝ) ^ 2 by norm_num]
  exact Real.sqrt_sq (by norm_num)

theorem fresnelCentral_eighth : ¬ Punto3.fresnelCentral (1 / 8) < 1e-12 := by
  rw [not_lt]
  unfold Punto3.fresnelCentral
  rw [sqrt_one_sixteenth, fresnelC_neg]
  have hC : (1 : ℝ) / 8 ≤ Punto3.fresnelC (1 / 4) := by
    have := fresnelC_lower (s := 1 / 4) (by norm_num) (by norm_num)
    linarith
  nlinarith [sq_nonneg (Punto3.fresnelS (1 / 4) - Punto3.fresnelS (-(1 / 4))), hC]

/-- C5: for every Fresnel number at or above the degeneracy threshold `1e-6`
whose normalizing denominator is not degenerate (at least `1e-12`), the
Fresnel intensity at `u = 0` is exactly 1: the numerator at `u = 0` coincides
with the normalizing denominator. -/
theorem c5_central_value_one (N : ℝ) (h1 : 1e-6 ≤ N)
    (h2 : ¬ Punto3.fresnelCentral N < 1e-12) :
    Punto3.calcular_patron_fresnel 0 N = 1 := by
  unfold Punto3.calcular_patron_fresnel
  rw [if_neg (not_lt.mpr (le_trans (by norm_num) h1)), if_neg h2]
  have hnum : Punto3.fresnelNumerator 0 N = Punto3.fresnelCentral N := by
    unfold Punto3.fresnelNumerator Punto3.fresnelCentral
    norm_num
  rw [hnum]
  exact div_self (ne_of_gt (lt_of_lt_of_le (by norm_num) (not_lt.mp h2)))

theorem c5_central_value_one_witness :
    (1e-6 : ℝ) ≤ 1 / 8 ∧ Punto3.calcular_patron_fresnel 0 (1 / 8) = 1 :=
  ⟨by norm_num, c5_central_value_one (1 / 8) (by norm_num) fresnelCentral_eighth⟩

/-- C2 counterexample: at `u = 1/16`, `N = 1/8` the source code's intensity
is strictly positive while the claim's formula — reading `±sqrt(N/2) ∓
u·sqrt(2/N)` with paired opposite signs, so that the second argument is
`-sqrt(N/2) + u·sqrt(2/N)` — evaluates to zero; hence the function does not
equal that reference definition. -/
theorem c2_claim_formula_differs :
    Punto3.calcular_patron_fresnel (1 / 16) (1 / 8) ≠
      Punto3.claimFresnelIntensity (1 / 16) (1 / 8) := by
  have hC2 : (1 : ℝ) / 4 ≤ Punto3.fresnelC (1 / 2) := by
    have := fresnelC_lower (s := 1 / 2) (by norm_num) (by norm_num)
    linarith
  have hcen := fresnelCentral_eighth
  have hcenpos : 0 < Punto3.fresnelCentral (1 / 8) :=
    lt_of_lt_of_le (by norm_num) (not_lt.mp hcen)
  have hlhs : 0 < Punto3.calcular_patron_fresnel (1 / 16) (1 / 8) := by
    unfold Punto3.calcular_patron_fresnel
    rw [if_neg (by norm_num), if_neg hcen]
    apply div_pos _ hcenpos
    unfold Punto3.fresnelNumerator
    rw [sqrt_one_sixteenth, sqrt_sixteen]
    norm_num
    rw [fresnelC_zero, fresnelC_neg]
    nlinarith [sq_nonneg (Punto3.fresnelS 0 - Punto3.fresnelS (-(1 / 2))), hC2]
  have hrhs : Punto3.claimFresnelIntensity (1 / 16) (1 / 8) = 0 := by
    unfold Punto3.claimFresnelIntensity
    rw [if_neg (by norm_num)]
    simp only [sqrt_one_sixteenth, sqrt_sixteen]
    norm_num
  rw [hrhs]
  exact ne_of_gt hlhs

/-- C2 amended: for all `u` and `N` the Fresnel intensity function equals the
reference definition in which both Fresnel-integral arguments subtract
`u·sqrt(2/N)` (`arg1 = sqrt(N/2) - u·sqrt(2/N)`, `arg2 = -sqrt(N/2) -
u·sqrt(2/N)`): below `N = 1e-6` it is `sinc(u)²`, otherwise
`(C1-C2)² + (S1-S2)²` divided by the same expression at `±sqrt(N/2)` unless
that denominator is below `1e-12`, in which case it is returned unnormalized. -/
theorem c2_fresnel_matches_reference (u N : ℝ) :
    Punto3.calcular_patron_fresnel u N = Punto3.referenceFresnelIntensity u N := by
  unfold Punto3.calcular_patron_fresnel Punto3.referenceFresnelIntensity
    Punto3.fresnelNumerator Punto3.fresnelCentral
  rfl

end ClaimsFresnel

section ClaimC1

theorem dft2_of_allzero {n : ℕ} {M : Fin n → Fin n → ℝ} (h : ∀ j k, M j k = 0)
    (u v : Fin n) : Spectral.dft2 M u v = 0 := by
  unfold Spectral.dft2
  refine Finset.sum_eq_zero fun j _ => Finset.sum_eq_zero fun k _ => ?_
  rw [h j k]
  simp

theorem intensityOf_of_allzero {n : ℕ} {M : Fin (n + 1) → Fin (n + 1) → ℝ}
    (h : ∀ j k, M j k = 0) (u v : Fin (n + 1)) : Spectral.intensityOf M u v = 0 := by
  unfold Spectral.intensityOf
  rw [dft2_of_allzero h]
  simp

theorem maxIntensity_allzero {n : ℕ} {I : Fin (n + 1) → Fin (n + 1) → ℝ}
    (h : ∀ u v, I u v = 0) : Spectral.maxIntensity I = 0 := by
  unfold Spectral.maxIntensity
  have he : (fun p : Fin (n + 1) × Fin (n + 1) => I p.1 p.2) = fun _ => 0 :=
    funext fun p => h p.1 p.2
  rw [he, Finset.sup'_const]

theorem dft2_dc {n : ℕ} (M : Fin (n + 1) → Fin (n + 1) → ℝ) :
    Spectral.dft2 M 0 0 = ((∑ j, ∑ k, M j k : ℝ) : ℂ) := by
  unfold Spectral.dft2
  simp only [Fin.val_zero, Nat.cast_zero, zero_mul, add_zero, zero_add, mul_zero,
    zero_div, Complex.exp_zero, mul_one]
  push_cast
  rfl

theorem fftshiftIdx_surj_zero {n : ℕ} : ∃ u : Fin (n + 1), Spectral.fftshiftIdx u = 0 :=
  ⟨-(((n + 2) / 2 : ℕ) : Fin (n + 1)), neg_add_cancel _⟩

theorem maxIntensity_pos {n : ℕ} {M : Fin (n + 1) → Fin (n + 1) → ℝ}
    (hpos : ∀ j k, 0 ≤ M j k) (hne : ∃ j k, 0 < M j k) :
    0 < Spectral.maxIntensity (Spectral.intensityOf M) := by
  obtain ⟨a, b, hab⟩ := hne
  have hsum : 0 < ∑ j, ∑ k, M j k := by
    have h2 : 0 < ∑ k, M a k :=
      lt_of_lt_of_le hab (Finset.single_le_sum (fun k _ => hpos a k) (Finset.mem_univ b))
    exact lt_of_lt_of_le h2
      (Finset.single_le_sum (fun j _ => Finset.sum_nonneg fun k _ => hpos j k)
        (Finset.mem_univ a))
  obtain ⟨u0, hu0⟩ := fftshiftIdx_surj_zero (n := n)
  have hI : Spectral.intensityOf M u0 u0 = (∑ j, ∑ k, M j k) ^ 2 := by
    unfold Spectral.intensityOf
    rw [hu0, dft2_dc, Complex.abs_ofReal, sq_abs]
  have hle : Spectral.intensityOf M u0 u0 ≤ Spectral.maxIntensity (Spectral.intensityOf M) :=
    Finset.le_sup' (f := fun p : Fin (n + 1) × Fin (n + 1) => Spectral.intensityOf M p.1 p.2)
      (Finset.mem_univ (u0, u0))
  have hpos2 : 0 < Spectral.intensityOf M u0 u0 := by
    rw [hI]
    exact pow_pos hsum 2
  linarith

theorem maxIntensity_normalized {n : ℕ} {I : Fin (n + 1) → Fin (n + 1) → ℝ}
    (hpos : 0 < Spectral.maxIntensity I) :
    Spectral.maxIntensity (fun u v => I u v / Spectral.maxIntensity I) = 1 := by
  unfold Spectral.maxIntensity at *
  apply le_antisymm
  · apply Finset.sup'_le
    intro p _
    exact (div_le_one hpos).mpr
      (Finset.le_sup' (f := fun p : Fin (n + 1) × Fin (n + 1) => I p.1 p.2)
        (Finset.mem_univ p))
  · obtain ⟨p0, hmem, hp0⟩ := Finset.exists_mem_eq_sup' Finset.univ_nonempty
      (fun p : Fin (n + 1) × Fin (n + 1) => I p.1 p.2)
    have h1 : I p0.1 p0.2 /
        Finset.univ.sup' Finset.univ_nonempty
          (fun p : Fin (n + 1) × Fin (n + 1) => I p.1 p.2) = 1 := by
      rw [hp0]
      exact div_self (ne_of_gt (hp0 ▸ hpos))
    exact le_trans (le_of_eq h1.symm)
      (Finset.le_sup'
        (f := fun p : Fin (n + 1) × Fin (n + 1) =>
          I p.1 p.2 /
            Finset.univ.sup' Finset.univ_nonempty
              (fun q : Fin (n + 1) × Fin (n + 1) => I q.1 q.2)) hmem)

/-- C1 (amended): the guarded FFT normalization of `fraunhofer_fft_gui.py`
returns the all-zero field on an all-zero mask (no division happens), and for
a mask with non-negative entries at least one of which is positive the
normalized field has maximum exactly 1. -/
theorem c1_fft_normalization {n : ℕ} (M : Fin (n + 1) → Fin (n + 1) → ℝ) :
    ((∀ j k, M j k = 0) → ∀ u v, FFTGui.calculate_diffraction_pattern M u v = 0) ∧
    ((∀ j k, 0 ≤ M j k) → (∃ j k, 0 < M j k) →
      Spectral.maxIntensity (fun u v => FFTGui.calculate_diffraction_pattern M u v) = 1) := by
  constructor
  · intro hz u v
    unfold FFTGui.calculate_diffraction_pattern
    rw [maxIntensity_allzero (intensityOf_of_allzero hz)]
    rw [if_neg (lt_irrefl 0)]
    exact intensityOf_of_allzero hz u v
  · intro hpos hne
    have hmax := maxIntensity_pos hpos hne
    unfold FFTGui.calculate_diffraction_pattern
    have he : (fun u v =>
        if 0 < Spectral.maxIntensity (Spectral.intensityOf M) then
          Spectral.intensityOf M u v / Spectral.maxIntensity (Spectral.intensityOf M)
        else Spectral.intensityOf M u v) =
        fun u v => Spectral.intensityOf M u v / Spectral.maxIntensity (Spectral.intensityOf M) := by
      funext u v
      rw [if_pos hmax]
    rw [he]
    exact maxIntensity_normalized hmax

theorem c1_fft_normalization_witness :
    Spectral.maxIntensity
      (fun u v => FFTGui.calculate_diffraction_pattern
        (fun _ _ => (1 : ℝ) : Fin 1 → Fin 1 → ℝ) u v) = 1 :=
  (c1_fft_normalization (n := 0) (fun _ _ => (1 : ℝ))).2 (fun _ _ => by norm_num)
    ⟨0, 0, by norm_num⟩

/-- C1 counterexample: `DiffractionSimulator.calculate_diffraction_pattern`
(`Punto_2.py`) divides by the global maximum unconditionally, so on the
all-zero mask the divisor is zero and the output entry is a non-finite float
(NaN), not an all-zero field as the claim requires of every implementation. -/
theorem c1_p2_allzero_gives_nan :
    Punto2Sim.calculate_diffraction_pattern
      (fun _ _ => (0 : ℝ) : Fin 1 → Fin 1 → ℝ) 0 0 = none := by
  unfold Punto2Sim.calculate_diffraction_pattern Spectral.npFloatDiv
  rw [maxIntensity_allzero (intensityOf_of_allzero fun _ _ => rfl)]
  rw [if_pos rfl]

end ClaimC1
